import Mathlib

/-!
Verification of `remove_test_modules.py`.

A shallow embedding of the test-module stripping tool: a line-oriented
scanner that removes `#[cfg(test)]` blocks from Rust source files by
brace-depth counting, plus the file-discovery and per-file driver logic.

Representation choices:
* file content is a `String`, processed as its `List Char` data, split
  into lines on the newline character exactly as Python's
  `content.split('\n')` / `'\n'.join(lines)` do;
* the scanner's cursor jumps (`i += 1` executed inside the per-character
  loop each time the brace count returns to zero, plus the unconditional
  `i += 1` after that loop) are modelled by a pending-skip counter that
  is consumed before the following lines are examined, which is the same
  set of visited indices as the Python `while i < len(lines)` loop;
* file-system reads and writes are oracle functions returning `Except`,
  mirroring the exceptions the Python `try` block can catch; the second
  component of the driver's result records the content passed to the
  write call (`none` when no write was attempted).
-/

/-- Python whitespace («\s» of the stdlib `re` module) restricted to the
ASCII whitespace characters space, tab, newline, carriage return,
vertical tab and form feed.  (For `str` patterns `re` additionally
accepts some Unicode whitespace; no input relevant to the claims
contains any.) -/
def isPySpace (c : Char) : Bool :=
  c = ' ' || c = '\t' || c = '\n' || c = '\r' || c = '\x0b' || c = '\x0c'

/-- The literal marker text of the regular expression
«^\s*#\[cfg\(test\)\]» from line 35 of the source. -/
def cfgTestMarker : List Char := "#[cfg(test)]".data

/-- `re.match(r'^\s*#\[cfg\(test\)\]', line)` succeeds iff after optional
leading whitespace the line starts with the literal `#[cfg(test)]`. -/
def isTestAttr (l : List Char) : Bool :=
  cfgTestMarker.isPrefixOf (l.dropWhile isPySpace)

/-- `content.split('\n')`: split a character sequence at every newline.
Always returns at least one (possibly empty) line. -/
def splitLines : List Char → List (List Char)
  | [] => [[]]
  | c :: cs =>
    if c = '\n' then [] :: splitLines cs
    else
      match splitLines cs with
      | [] => [[c]]
      | t :: ts => (c :: t) :: ts

/-- `'\n'.join(lines)`: interleave a newline between consecutive lines. -/
def joinLines : List (List Char) → List Char
  | [] => []
  | [l] => l
  | l :: l' :: ls => l ++ '\n' :: joinLines (l' :: ls)

/-- The per-character brace loop of lines 44-53 of the source: starting
from brace count `d`, scan the line; `{` increments and `}` decrements
the count.  Returns the final count together with the number of times
the count returned to exactly `0` on a `}` — each such hit executed
`in_test_module = False` and an extra `i += 1` in the Python loop. -/
def scanChars : Int → List Char → Int × Nat
  | d, [] => (d, 0)
  | d, c :: cs =>
    if c = '{' then scanChars (d + 1) cs
    else if c = '}' then
      let r := scanChars (d - 1) cs
      if d - 1 = 0 then (r.1, r.2 + 1) else r
    else scanChars d cs

/-- The `while i < len(lines)` loop of lines 31-61 of the source.
State: `inTest` (`in_test_module`), `depth` (`brace_count`) and `skip`,
the number of lines the cursor still has to jump over because of the
extra `i += 1` executions (those lines are never examined at all).
For each examined line, in source order:
* a line matching the test marker (checked first, even inside a block)
  sets `inTest := true`, resets the count and is dropped;
* otherwise, inside a block, the line is dropped, the character loop
  updates the count, each return of the count to zero clears `inTest`
  and queues one extra cursor advance;
* otherwise the line is copied to the output. -/
def processLines : Bool → Int → Nat → List (List Char) → List (List Char)
  | _, _, _, [] => []
  | inTest, depth, k + 1, _ :: ls => processLines inTest depth k ls
  | inTest, depth, 0, l :: ls =>
    if isTestAttr l then
      processLines true 0 0 ls
    else if inTest then
      let r := scanChars depth l
      processLines (r.2 == 0) r.1 r.2 ls
    else
      l :: processLines inTest depth 0 ls

/-- Lines 25-66 of `remove_test_modules`: split the content, run the
scanner from the initial state, rejoin, and report whether the new text
differs from the original (`new_content != original_content`). -/
def remove_test_modules_text (content : String) : String × Bool :=
  let lines := splitLines content.data
  let new_lines := processLines false 0 0 lines
  let new_content := String.mk (joinLines new_lines)
  (new_content, decide (new_content ≠ content))

/-- The whole of `remove_test_modules` (lines 12-76): read the file,
transform, write back only when the text changed, print the
corresponding notice; any exception from the read or the write is
caught, printed as `Error processing <path>: <message>` and turns the
result into `False` (not modified).  Result components: the returned
flag, the content passed to the write call (`none` when no write was
attempted), and the printed lines. -/
def remove_test_modules_run (file_path : String) (read : Except String String)
    (write : String → Except String Unit) : Bool × Option String × List String :=
  match read with
  | .error e => (false, none, ["Error processing " ++ file_path ++ ": " ++ e])
  | .ok content =>
    let r := remove_test_modules_text content
    if r.2 then
      match write r.1 with
      | .error e => (false, some r.1, ["Error processing " ++ file_path ++ ": " ++ e])
      | .ok _ => (true, some r.1, ["Removed test modules from: " ++ file_path])
    else (false, none, [])

/-- A path in the scanned tree, relative to the root directory, as its
list of components. -/
abbrev FsPath := List String

/-- Final component of a path (the file name). -/
def lastName (p : FsPath) : String := p.getLastD ""

/-- The glob name pattern `*.rs`: `*` matches any (possibly empty)
character sequence, so a name matches exactly when it ends in `.rs`. -/
def matchesRsName (name : String) : Bool :=
  ".rs".data.isSuffixOf name.data

/-- `root_dir.glob("crates/*")` (line 88): the first-level entry names
under `crates`, each once.  In the file-list model of the tree an entry
named `c` exists exactly when some file path starts with `crates/c`. -/
def cratesEntries (fs : List FsPath) : List String :=
  (fs.filterMap fun p =>
    if p.head? == some "crates" then p.tail.head? else none).dedup

/-- `crate_dir.is_dir()` (line 89): in the file-list model, `crates/c`
is a directory exactly when some file lies strictly below it. -/
def isDirUnderCrates (fs : List FsPath) (c : String) : Bool :=
  fs.any fun p => ["crates", c].isPrefixOf p && decide (2 < p.length)

/-- `crate_dir.rglob("*.rs")` (line 90): the files strictly below
`crates/c` whose name matches `*.rs`. -/
def rglobCratesRs (fs : List FsPath) (c : String) : List FsPath :=
  fs.filter fun p =>
    ["crates", c].isPrefixOf p && decide (2 < p.length) && matchesRsName (lastName p)

/-- `root_dir.glob(top ++ "/**/*.rs")` (lines 94-95): the files below
the top-level directory `top` (at any depth, `**` matching zero or more
intermediate directories) whose name matches `*.rs`. -/
def globTreeRs (fs : List FsPath) (top : String) : List FsPath :=
  fs.filter fun p =>
    [top].isPrefixOf p && decide (1 < p.length) && matchesRsName (lastName p)

/-- Lines 85-96 of `main`: the discovered `rust_files` list — for every
first-level directory entry under `crates` its recursive `*.rs` files,
then the `tests/**/*.rs`, `examples/**/*.rs` and `swarm/**/*.rs`
globs. -/
def discoverRustFiles (fs : List FsPath) : List FsPath :=
  ((cratesEntries fs).filter (isDirUnderCrates fs)).flatMap (rglobCratesRs fs)
    ++ globTreeRs fs "tests" ++ globTreeRs fs "examples" ++ globTreeRs fs "swarm"

/-- Rendering of a `Path` value in the printed messages. -/
def pathStr (p : FsPath) : String := String.intercalate "/" p

/-- The processing loop of lines 101-105 of `main`: over the discovered
files, in order, count every path confirmed to be a regular file, run
`remove_test_modules` on it, and count it as modified when that returns
`True`.  Result: `(processed_count, modified_count, printed lines)`. -/
def processAll (isFile : FsPath → Bool) (read : FsPath → Except String String)
    (write : FsPath → String → Except String Unit) :
    List FsPath → Nat × Nat × List String
  | [] => (0, 0, [])
  | f :: rest =>
    let r := processAll isFile read write rest
    if isFile f then
      let pr := remove_test_modules_run (pathStr f) (read f) (write f)
      (r.1 + 1, (if pr.1 then r.2.1 + 1 else r.2.1), pr.2.2 ++ r.2.2)
    else r

/-- `main` (lines 78-108) over a root whose file tree is `fs`: discovery,
the processing loop, then the two summary prints
`print(f"\nProcessed {processed_count} Rust files")` and
`print(f"Modified {modified_count} files")`.  Result: all printed
lines, one entry per `print` call. -/
def main_run (fs : List FsPath) (isFile : FsPath → Bool)
    (read : FsPath → Except String String)
    (write : FsPath → String → Except String Unit) : List String :=
  let files := discoverRustFiles fs
  let r := processAll isFile read write files
  r.2.2 ++ ["\nProcessed " ++ toString r.1 ++ " Rust files",
            "Modified " ++ toString r.2.1 ++ " files"]

/-- When the brace count never returns to zero while the scanner is
inside a block — under the scanner's own discipline: a marker line
resets the count, any other line is scanned character by character —
the scanner stays inside the block for good. -/
def neverCloses : Int → List (List Char) → Bool
  | _, [] => true
  | d, l :: ls =>
    if isTestAttr l then neverCloses 0 ls
    else
      let r := scanChars d l
      r.2 == 0 && neverCloses r.1 ls

/-- The discovery contract in the words of the specification (for the
refinement comparison with `discoverRustFiles`): the files whose name
carries the `.rs` suffix lying recursively under `crates/<first-level
entry>/`, `tests/`, `examples/` or `swarm/`. -/
def specDiscovered (p : FsPath) : Bool :=
  ".rs".data.isSuffixOf (lastName p).data &&
  ((p.head? == some "crates" && decide (3 ≤ p.length))
    || ((p.head? == some "tests" || p.head? == some "examples"
          || p.head? == some "swarm") && decide (2 ≤ p.length)))

/-- The concrete scenario input of the specification (section 8). -/
def scenarioInput : String :=
  "fn real_code() \x7b\x7d\n#[cfg(test)]\nmod tests \x7b\n    fn a() \x7b assert!(true); \x7d\n\x7d\nfn more_code() \x7b\x7d\n"

/-- A file with two non-nested test blocks separated by ordinary code
(lines `b`, `c`) and followed by ordinary code (lines `d`, `e`). -/
def twoBlocksInput : String :=
  "a\n#[cfg(test)]\nmod t1 \x7b\n\x7d\nb\nc\n#[cfg(test)]\nmod t2 \x7b\n\x7d\nd\ne"

theorem processLines_nil (b : Bool) (d : Int) (k : Nat) :
    processLines b d k [] = [] := by
  cases k <;> rfl

theorem processLines_skip (b : Bool) (d : Int) (k : Nat) (l : List Char)
    (ls : List (List Char)) :
    processLines b d (k + 1) (l :: ls) = processLines b d k ls := rfl

theorem processLines_zero (b : Bool) (d : Int) (l : List Char)
    (ls : List (List Char)) :
    processLines b d 0 (l :: ls) =
      if isTestAttr l then
        processLines true 0 0 ls
      else if b then
        let r := scanChars d l
        processLines (r.2 == 0) r.1 r.2 ls
      else
        l :: processLines b d 0 ls := rfl

/-- The scanner only deletes whole lines: its output is a sublist of its
input, whatever the starting state. -/
theorem processLines_sublist (ls : List (List Char)) (b : Bool) (d : Int)
    (k : Nat) : (processLines b d k ls).Sublist ls := by
  induction ls generalizing b d k with
  | nil => rw [processLines_nil]
  | cons l ls ih =>
    cases k with
    | succ k => rw [processLines_skip]; exact (ih b d k).cons l
    | zero =>
      rw [processLines_zero]
      cases hA : isTestAttr l with
      | true => simp only [if_pos rfl]; exact (ih true 0 0).cons l
      | false =>
        cases b with
        | true =>
          simp only [Bool.false_ne_true, if_false, if_pos rfl]
          exact (ih _ _ _).cons l
        | false =>
          simp only [Bool.false_ne_true, if_false]
          exact (ih false d 0).cons₂ l

/-- Every line the scanner keeps fails the marker test: marker lines are
always dropped (and reset the state), lines inside a block are dropped,
and skipped lines are never copied. -/
theorem processLines_no_attr (ls : List (List Char)) (b : Bool) (d : Int)
    (k : Nat) (l : List Char) (hl : l ∈ processLines b d k ls) :
    isTestAttr l = false := by
  induction ls generalizing b d k with
  | nil => rw [processLines_nil] at hl; cases hl
  | cons t ls ih =>
    cases k with
    | succ k => rw [processLines_skip] at hl; exact ih _ _ _ hl
    | zero =>
      rw [processLines_zero] at hl
      cases hA : isTestAttr t with
      | true => rw [if_pos hA] at hl; exact ih _ _ _ hl
      | false =>
        rw [if_neg (by simp [hA])] at hl
        cases b with
        | true => rw [if_pos rfl] at hl; exact ih _ _ _ hl
        | false =>
          rw [if_neg (by simp)] at hl
          rcases List.mem_cons.mp hl with h | h
          · exact h ▸ hA
          · exact ih _ _ _ h

/-- Outside a block, a run of non-marker lines is copied verbatim in
front of whatever the scanner makes of the rest. -/
theorem processLines_copy (pre : List (List Char)) (d : Int)
    (rest : List (List Char)) (h : ∀ l ∈ pre, isTestAttr l = false) :
    processLines false d 0 (pre ++ rest) = pre ++ processLines false d 0 rest := by
  induction pre with
  | nil => rfl
  | cons t pre ih =>
    have ht : isTestAttr t = false := h t (List.mem_cons_self t pre)
    rw [List.cons_append, processLines_zero, if_neg (by simp [ht]),
      if_neg (by simp), ih (fun l hl => h l (List.mem_cons_of_mem t hl))]
    rfl

/-- A file of non-marker lines passes through the scanner unchanged. -/
theorem processLines_id (ls : List (List Char)) (d : Int)
    (h : ∀ l ∈ ls, isTestAttr l = false) :
    processLines false d 0 ls = ls := by
  have := processLines_copy ls d [] h
  rwa [List.append_nil, processLines_nil, List.append_nil] at this

/-- Once inside a block whose braces never let the count return to zero,
the scanner discards every remaining line. -/
theorem processLines_neverCloses (ls : List (List Char)) (d : Int)
    (h : neverCloses d ls = true) : processLines true d 0 ls = [] := by
  induction ls generalizing d with
  | nil => rw [processLines_nil]
  | cons l ls ih =>
    rw [processLines_zero]
    cases hA : isTestAttr l with
    | true =>
      rw [if_pos rfl]
      rw [neverCloses, if_pos hA] at h
      exact ih 0 h
    | false =>
      rw [neverCloses, if_neg (by simp [hA])] at h
      simp only [Bool.and_eq_true, beq_iff_eq] at h
      rw [if_neg (by simp [hA]), if_pos rfl]
      simp only [h.1]
      exact ih _ h.2

theorem splitLines_ne_nil (cs : List Char) : splitLines cs ≠ [] := by
  cases cs with
  | nil => simp [splitLines]
  | cons c cs =>
    rw [splitLines]
    split
    · simp
    · split <;> simp

/-- No produced line contains a newline. -/
theorem splitLines_no_newline (cs : List Char) (l : List Char)
    (hl : l ∈ splitLines cs) : '\n' ∉ l := by
  induction cs generalizing l with
  | nil =>
    rw [splitLines] at hl
    rcases List.mem_singleton.mp hl with rfl
    simp
  | cons c cs ih =>
    rw [splitLines] at hl
    by_cases hc : c = '\n'
    · rw [if_pos hc] at hl
      rcases List.mem_cons.mp hl with rfl | h
      · simp
      · exact ih l h
    · rw [if_neg hc] at hl
      rcases hsp : splitLines cs with _ | ⟨t, ts⟩
      · exact absurd hsp (splitLines_ne_nil cs)
      · rw [hsp] at hl
        rcases List.mem_cons.mp hl with rfl | h
        · intro hmem
          rcases List.mem_cons.mp hmem with h' | h'
          · exact hc h'.symm
          · exact ih t (hsp ▸ List.mem_cons_self t ts) h'
        · exact ih l (hsp ▸ List.mem_cons_of_mem t h)

/-- `'\n'.join(content.split('\n')) == content`. -/
theorem joinLines_splitLines (cs : List Char) :
    joinLines (splitLines cs) = cs := by
  induction cs with
  | nil => rfl
  | cons c cs ih =>
    rw [splitLines]
    by_cases hc : c = '\n'
    · rw [if_pos hc]
      rcases hsp : splitLines cs with _ | ⟨t, ts⟩
      · exact absurd hsp (splitLines_ne_nil cs)
      · rw [hsp] at ih
        rw [joinLines, ih, hc, List.nil_append]
    · rw [if_neg hc]
      rcases hsp : splitLines cs with _ | ⟨t, ts⟩
      · exact absurd hsp (splitLines_ne_nil cs)
      · rw [hsp] at ih
        cases ts with
        | nil => rw [joinLines] at ih ⊢; rw [ih]
        | cons t' ts =>
          rw [joinLines] at ih ⊢
          rw [List.cons_append, ih]

/-- Splitting a newline-free line back gives that single line. -/
theorem splitLines_single (l : List Char) (h : '\n' ∉ l) :
    splitLines l = [l] := by
  induction l with
  | nil => rfl
  | cons c cs ih =>
    rw [splitLines, if_neg (fun hc => h (List.mem_cons.mpr (Or.inl hc.symm))),
      ih (fun hm => h (List.mem_cons_of_mem c hm))]

/-- Splitting `l ++ '\n' ++ rest` with `l` newline-free peels off `l`. -/
theorem splitLines_append (l : List Char) (rest : List Char)
    (h : '\n' ∉ l) :
    splitLines (l ++ '\n' :: rest) = l :: splitLines rest := by
  induction l with
  | nil => rw [List.nil_append, splitLines, if_pos rfl]
  | cons c cs ih =>
    rw [List.cons_append, splitLines,
      if_neg (fun hc => h (List.mem_cons.mpr (Or.inl hc.symm))),
      ih (fun hm => h (List.mem_cons_of_mem c hm))]

/-- `('\n'.join(lines)).split('\n') == lines` for a nonempty list of
newline-free lines. -/
theorem splitLines_joinLines (ls : List (List Char)) (hne : ls ≠ [])
    (h : ∀ l ∈ ls, '\n' ∉ l) : splitLines (joinLines ls) = ls := by
  induction ls with
  | nil => exact absurd rfl hne
  | cons l ls ih =>
    cases ls with
    | nil =>
      rw [joinLines]
      exact splitLines_single l (h l (List.mem_cons_self l []))
    | cons l' ls' =>
      rw [joinLines, splitLines_append l _ (h l (List.mem_cons_self l _)),
        ih (by simp) (fun t ht => h t (List.mem_cons_of_mem l ht))]

theorem remove_test_modules_text_def (content : String) :
    remove_test_modules_text content =
      (String.mk (joinLines (processLines false 0 0 (splitLines content.data))),
       decide (String.mk (joinLines (processLines false 0 0
         (splitLines content.data))) ≠ content)) := rfl

theorem remove_test_modules_run_err (p e : String)
    (write : String → Except String Unit) :
    remove_test_modules_run p (.error e) write
      = (false, none, ["Error processing " ++ p ++ ": " ++ e]) := rfl

theorem remove_test_modules_run_ok (p content : String)
    (write : String → Except String Unit) :
    remove_test_modules_run p (.ok content) write =
      if (remove_test_modules_text content).2 then
        match write (remove_test_modules_text content).1 with
        | .error e => (false, some (remove_test_modules_text content).1,
            ["Error processing " ++ p ++ ": " ++ e])
        | .ok _ => (true, some (remove_test_modules_text content).1,
            ["Removed test modules from: " ++ p])
      else (false, none, []) := rfl

/-- The loop counters of `main`: `processed_count` counts the discovered
paths confirmed to be regular files, `modified_count` counts those of
them on which `remove_test_modules` returned `True`. -/
theorem processAll_counts (files : List FsPath) (isFile : FsPath → Bool)
    (read : FsPath → Except String String)
    (write : FsPath → String → Except String Unit) :
    (processAll isFile read write files).1 = files.countP isFile ∧
    (processAll isFile read write files).2.1 =
      files.countP (fun f =>
        isFile f && (remove_test_modules_run (pathStr f) (read f) (write f)).1) := by
  induction files with
  | nil => exact ⟨rfl, rfl⟩
  | cons f rest ih =>
    rw [processAll]
    cases hf : isFile f with
    | false =>
      constructor <;> simp [hf, List.countP_cons, ih.1, ih.2]
    | true =>
      cases hm : (remove_test_modules_run (pathStr f) (read f) (write f)).1 with
      | false => constructor <;> simp [hf, hm, List.countP_cons, ih.1, ih.2]
      | true => constructor <;> simp [hf, hm, List.countP_cons, ih.1, ih.2]

/-- C1: on the specification's concrete scenario input the code does NOT
produce `fn real_code() {}\nfn more_code() {}`: it outputs only
`fn real_code() {}\n` (reporting the file as modified) — the line
`fn more_code() {}` immediately after the block's closing brace is
dropped by the extra cursor advance. -/
theorem C1_scenario_actual_output :
    remove_test_modules_text scenarioInput = ("fn real_code() \x7b\x7d\n", true)
    ∧ (remove_test_modules_text scenarioInput).1
        ≠ "fn real_code() \x7b\x7d\nfn more_code() \x7b\x7d" := by
  constructor
  · decide
  · decide

/-- C2: the claim fails on the code: for the two-block input the lines
`b` and `d`, each immediately following a closing-brace line and lying
outside every test block, are NOT copied to the output — the result is
`a\nc\ne` instead of `a\nb\nc\nd\ne`. -/
theorem C2_following_lines_dropped :
    remove_test_modules_text twoBlocksInput = ("a\nc\ne", true)
    ∧ (splitLines (remove_test_modules_text twoBlocksInput).1.data
        ≠ ["a".data, "b".data, "c".data, "d".data, "e".data]) := by
  constructor
  · decide
  · decide

/-- C3: when the brace count returns to zero exactly once while scanning
a non-marker line inside a test block, the cursor is advanced twice —
once inside the per-character loop and once after it — so the line
immediately following the closing-brace line is also discarded: the
scan continues (outside the block, with the final count) directly at
the line after next. -/
theorem C3_cursor_advances_twice (d : Int) (line next : List Char)
    (rest : List (List Char)) (hline : isTestAttr line = false)
    (hhits : (scanChars d line).2 = 1) :
    processLines true d 0 (line :: next :: rest)
      = processLines false (scanChars d line).1 0 rest := by
  rw [processLines_zero, if_neg (by simp [hline]), if_pos rfl]
  simp only [hhits]
  rfl

theorem C3_witness :
    isTestAttr ['\x7d'] = false ∧ (scanChars 1 ['\x7d']).2 = 1 ∧
    processLines true 1 0 (['\x7d'] :: ['n'] :: [['m']])
      = processLines false (scanChars 1 ['\x7d']).1 0 [['m']] :=
  ⟨by decide, by decide,
    C3_cursor_advances_twice 1 ['\x7d'] ['n'] [['m']] (by decide) (by decide)⟩

/-- C4: the transformation is idempotent: applied to its own output it
returns that output unchanged with the modified flag `False`, and a run
of `remove_test_modules` on a file holding the transformed content
attempts no write, prints nothing and returns `False`. -/
theorem C4_idempotent (content : String) :
    remove_test_modules_text ((remove_test_modules_text content).1)
      = ((remove_test_modules_text content).1, false)
    ∧ ∀ (path : String) (write : String → Except String Unit),
        remove_test_modules_run path (.ok ((remove_test_modules_text content).1))
            write
          = (false, none, []) := by
  have h1 : remove_test_modules_text ((remove_test_modules_text content).1)
      = ((remove_test_modules_text content).1, false) := by
    rw [remove_test_modules_text_def content]
    by_cases hout : processLines false 0 0 (splitLines content.data) = []
    · rw [hout]
      show remove_test_modules_text (String.mk (joinLines []))
        = (String.mk (joinLines []), false)
      decide
    · have hnl : ∀ l ∈ processLines false 0 0 (splitLines content.data),
          '\n' ∉ l := fun l hl =>
        splitLines_no_newline content.data l
          ((processLines_sublist (splitLines content.data) false 0 0).subset hl)
      have hattr : ∀ l ∈ processLines false 0 0 (splitLines content.data),
          isTestAttr l = false := fun l hl =>
        processLines_no_attr (splitLines content.data) false 0 0 l hl
      have key : String.mk (joinLines (processLines false 0 0 (splitLines
          (String.mk (joinLines (processLines false 0 0
            (splitLines content.data)))).data)))
          = String.mk (joinLines (processLines false 0 0
              (splitLines content.data))) := by
        rw [show (String.mk (joinLines (processLines false 0 0
              (splitLines content.data)))).data
            = joinLines (processLines false 0 0 (splitLines content.data))
            from rfl,
          splitLines_joinLines _ hout hnl, processLines_id _ 0 hattr]
      rw [remove_test_modules_text_def, key]
      simp
  refine ⟨h1, fun path write => ?_⟩
  have h2 : (remove_test_modules_text ((remove_test_modules_text content).1)).2
      = false := by rw [h1]
  rw [remove_test_modules_run_ok, h2]
  simp

/-- C5: a file none of whose lines begins (after optional leading
whitespace) with the `#[cfg(test)]` marker comes back byte-for-byte
identical with the modified flag `False`; the run on such a file
attempts no write and prints nothing; and in general a write is only
ever attempted with a text that differs from the original content. -/
theorem C5_untouched_file (content : String)
    (h : ∀ l ∈ splitLines content.data, isTestAttr l = false) :
    remove_test_modules_text content = (content, false)
    ∧ (∀ (path : String) (write : String → Except String Unit),
        remove_test_modules_run path (.ok content) write = (false, none, []))
    ∧ (∀ (path c : String) (write : String → Except String Unit) (w : String),
        (remove_test_modules_run path (.ok c) write).2.1 = some w → w ≠ c) := by
  have h1 : remove_test_modules_text content = (content, false) := by
    rw [remove_test_modules_text_def, processLines_id _ 0 h,
      joinLines_splitLines,
      show String.mk content.data = content from rfl]
    simp
  refine ⟨h1, fun path write => ?_, fun path c write w hw => ?_⟩
  · have h2 : (remove_test_modules_text content).2 = false := by rw [h1]
    rw [remove_test_modules_run_ok, h2]
    simp
  · rw [remove_test_modules_run_ok] at hw
    by_cases hflag : (remove_test_modules_text c).2 = true
    · rw [if_pos hflag] at hw
      have hne : (remove_test_modules_text c).1 ≠ c :=
        of_decide_eq_true (by
          have h3 : (remove_test_modules_text c).2
              = decide ((remove_test_modules_text c).1 ≠ c) := rfl
          rw [← h3]; exact hflag)
      rcases hwrite : write (remove_test_modules_text c).1 with e | u <;>
        rw [hwrite] at hw <;> simp only [Option.some.injEq] at hw <;>
        exact hw.symm ▸ hne
    · rw [if_neg hflag] at hw
      simp at hw

theorem C5_witness :
    (∀ l ∈ splitLines "fn a() \x7b\x7d\nfn b() \x7b\x7d".data,
      isTestAttr l = false)
    ∧ (remove_test_modules_text "fn a() \x7b\x7d\nfn b() \x7b\x7d"
        = ("fn a() \x7b\x7d\nfn b() \x7b\x7d", false)
      ∧ (∀ (path : String) (write : String → Except String Unit),
          remove_test_modules_run path (.ok "fn a() \x7b\x7d\nfn b() \x7b\x7d")
              write
            = (false, none, []))
      ∧ (∀ (path c : String) (write : String → Except String Unit) (w : String),
          (remove_test_modules_run path (.ok c) write).2.1 = some w → w ≠ c)) :=
  ⟨by decide, C5_untouched_file "fn a() \x7b\x7d\nfn b() \x7b\x7d" (by decide)⟩

/-- C6: a marker line after which the brace count never returns to zero
raises nothing and warns nothing: the scanner (a total function)
discards every line from the marker line to the end of the file, the
output is exactly the lines before the marker, and the file is reported
modified exactly when that truncated text differs from the original. -/
theorem C6_unterminated_block (content : String) (pre post : List (List Char))
    (attrLine : List Char)
    (hs : splitLines content.data = pre ++ attrLine :: post)
    (hpre : ∀ l ∈ pre, isTestAttr l = false)
    (hattr : isTestAttr attrLine = true)
    (hpost : neverCloses 0 post = true) :
    remove_test_modules_text content
      = (String.mk (joinLines pre),
         decide (String.mk (joinLines pre) ≠ content))
    ∧ (∀ (b : Bool) (d : Int), processLines b d 0 (attrLine :: post) = []) := by
  have hdrop : ∀ (b : Bool) (d : Int),
      processLines b d 0 (attrLine :: post) = [] := by
    intro b d
    rw [processLines_zero, if_pos hattr]
    exact processLines_neverCloses post 0 hpost
  constructor
  · rw [remove_test_modules_text_def, hs, processLines_copy pre 0 _ hpre,
      hdrop false 0, List.append_nil]
  · exact hdrop

theorem C6_witness :
    splitLines "x\n#[cfg(test)]\nmod t \x7b".data
      = ["x".data] ++ "#[cfg(test)]".data :: ["mod t \x7b".data]
    ∧ (∀ l ∈ ["x".data], isTestAttr l = false)
    ∧ isTestAttr "#[cfg(test)]".data = true
    ∧ neverCloses 0 ["mod t \x7b".data] = true
    ∧ (remove_test_modules_text "x\n#[cfg(test)]\nmod t \x7b"
        = (String.mk (joinLines ["x".data]),
           decide (String.mk (joinLines ["x".data]) ≠ "x\n#[cfg(test)]\nmod t \x7b"))
      ∧ (∀ (b : Bool) (d : Int),
          processLines b d 0 ("#[cfg(test)]".data :: ["mod t \x7b".data]) = [])) :=
  ⟨by decide, by decide, by decide, by decide,
    C6_unterminated_block "x\n#[cfg(test)]\nmod t \x7b" ["x".data]
      ["mod t \x7b".data] "#[cfg(test)]".data
      (by decide) (by decide) (by decide) (by decide)⟩

/-- C7: every per-file exception is contained inside
`remove_test_modules`: a failing read yields the `Error processing`
line and the `False` (unmodified) result; a failing write on a file
that needed one likewise; and the driver loop still counts every
regular file — no per-file error aborts the run. -/
theorem C7_errors_contained (path e c : String)
    (write : String → Except String Unit)
    (files : List FsPath) (isFile : FsPath → Bool)
    (read : FsPath → Except String String)
    (wr : FsPath → String → Except String Unit)
    (hflag : (remove_test_modules_text c).2 = true) :
    remove_test_modules_run path (.error e) write
      = (false, none, ["Error processing " ++ path ++ ": " ++ e])
    ∧ remove_test_modules_run path (.ok c) (fun _ => .error e)
        = (false, some (remove_test_modules_text c).1,
           ["Error processing " ++ path ++ ": " ++ e])
    ∧ (processAll isFile read wr files).1 = files.countP isFile := by
  refine ⟨rfl, ?_, (processAll_counts files isFile read wr).1⟩
  rw [remove_test_modules_run_ok, if_pos hflag]

theorem C7_witness :
    (remove_test_modules_text "#[cfg(test)]").2 = true
    ∧ (remove_test_modules_run "p" (.error "boom") (fun _ => .ok ())
        = (false, none, ["Error processing " ++ "p" ++ ": " ++ "boom"])
      ∧ remove_test_modules_run "p" (.ok "#[cfg(test)]")
            (fun _ => .error "boom")
          = (false, some (remove_test_modules_text "#[cfg(test)]").1,
             ["Error processing " ++ "p" ++ ": " ++ "boom"])
      ∧ (processAll (fun _ => true) (fun _ => .error "gone")
            (fun _ _ => .ok ()) [["tests", "a.rs"]]).1
          = [["tests", "a.rs"]].countP (fun _ => true)) :=
  ⟨by decide,
    C7_errors_contained "p" "boom" "#[cfg(test)]" (fun _ => .ok ())
      [["tests", "a.rs"]] (fun _ => true) (fun _ => .error "gone")
      (fun _ _ => .ok ()) (by decide)⟩

theorem prefix2_iff (c : String) (p : FsPath) :
    ["crates", c].isPrefixOf p = true ↔ ∃ t, p = "crates" :: c :: t := by
  rw [List.isPrefixOf_iff_prefix]
  exact ⟨fun ⟨t, ht⟩ => ⟨t, ht.symm⟩, fun ⟨t, ht⟩ => ⟨t, ht.symm⟩⟩

theorem prefix1_iff (top : String) (p : FsPath) :
    [top].isPrefixOf p = true ↔ ∃ t, p = top :: t := by
  rw [List.isPrefixOf_iff_prefix]
  exact ⟨fun ⟨t, ht⟩ => ⟨t, ht.symm⟩, fun ⟨t, ht⟩ => ⟨t, ht.symm⟩⟩

/-- C8: discovery yields exactly the `.rs`-suffixed files lying
recursively under `crates/<first-level entry>/`, `tests/`, `examples/`
or `swarm/` — and so never a file under an unrelated top-level
directory; on a tree where some of those root subdirectories do not
exist the corresponding contribution is simply empty (`discoverRustFiles`
is total — nothing is raised). -/
theorem C8_discovery (fs : List FsPath) (p : FsPath) :
    p ∈ discoverRustFiles fs ↔ p ∈ fs ∧ specDiscovered p = true := by
  constructor
  · intro hp
    rw [discoverRustFiles] at hp
    simp only [List.mem_append, List.mem_flatMap, List.mem_filter] at hp
    rcases hp with ((⟨c, _hc, hpc⟩ | hp) | hp) | hp
    · rw [rglobCratesRs, List.mem_filter] at hpc
      obtain ⟨hpfs, hcond⟩ := hpc
      simp only [Bool.and_eq_true, decide_eq_true_eq] at hcond
      obtain ⟨⟨hpre, hlen⟩, hsuf⟩ := hcond
      obtain ⟨t, rfl⟩ := (prefix2_iff c _).mp hpre
      refine ⟨hpfs, ?_⟩
      simp only [specDiscovered, Bool.and_eq_true, Bool.or_eq_true,
        beq_iff_eq, decide_eq_true_eq]
      refine ⟨hsuf, Or.inl ⟨rfl, ?_⟩⟩
      simp only [List.length_cons] at hlen ⊢
      omega
    · rw [globTreeRs, List.mem_filter] at hp
      obtain ⟨hpfs, hcond⟩ := hp
      simp only [Bool.and_eq_true, decide_eq_true_eq] at hcond
      obtain ⟨⟨hpre, hlen⟩, hsuf⟩ := hcond
      obtain ⟨t, rfl⟩ := (prefix1_iff _ _).mp hpre
      refine ⟨hpfs, ?_⟩
      simp only [specDiscovered, Bool.and_eq_true, Bool.or_eq_true,
        beq_iff_eq, decide_eq_true_eq]
      refine ⟨hsuf, Or.inr ⟨Or.inl (Or.inl rfl), ?_⟩⟩
      simp only [List.length_cons] at hlen ⊢
      omega
    · rw [globTreeRs, List.mem_filter] at hp
      obtain ⟨hpfs, hcond⟩ := hp
      simp only [Bool.and_eq_true, decide_eq_true_eq] at hcond
      obtain ⟨⟨hpre, hlen⟩, hsuf⟩ := hcond
      obtain ⟨t, rfl⟩ := (prefix1_iff _ _).mp hpre
      refine ⟨hpfs, ?_⟩
      simp only [specDiscovered, Bool.and_eq_true, Bool.or_eq_true,
        beq_iff_eq, decide_eq_true_eq]
      refine ⟨hsuf, Or.inr ⟨Or.inl (Or.inr rfl), ?_⟩⟩
      simp only [List.length_cons] at hlen ⊢
      omega
    · rw [globTreeRs, List.mem_filter] at hp
      obtain ⟨hpfs, hcond⟩ := hp
      simp only [Bool.and_eq_true, decide_eq_true_eq] at hcond
      obtain ⟨⟨hpre, hlen⟩, hsuf⟩ := hcond
      obtain ⟨t, rfl⟩ := (prefix1_iff _ _).mp hpre
      refine ⟨hpfs, ?_⟩
      simp only [specDiscovered, Bool.and_eq_true, Bool.or_eq_true,
        beq_iff_eq, decide_eq_true_eq]
      refine ⟨hsuf, Or.inr ⟨Or.inr rfl, ?_⟩⟩
      simp only [List.length_cons] at hlen ⊢
      omega
  · rintro ⟨hpfs, hspec⟩
    simp only [specDiscovered, Bool.and_eq_true, Bool.or_eq_true,
      beq_iff_eq, decide_eq_true_eq] at hspec
    obtain ⟨hsuf, hloc⟩ := hspec
    rw [discoverRustFiles]
    simp only [List.mem_append, List.mem_flatMap, List.mem_filter]
    rcases hloc with ⟨hhead, hlen⟩ | ⟨htop, hlen⟩
    · obtain ⟨c, x, r, rfl⟩ : ∃ c x r, p = "crates" :: c :: x :: r := by
        cases p with
        | nil => exact absurd hhead (by simp)
        | cons h tl =>
          cases tl with
          | nil =>
            simp only [List.length_cons, List.length_nil] at hlen
            omega
          | cons c tl2 =>
            cases tl2 with
            | nil =>
              simp only [List.length_cons, List.length_nil] at hlen
              omega
            | cons x r =>
              have hh : h = "crates" := by simpa using hhead
              exact ⟨c, x, r, by rw [hh]⟩
      left; left; left
      refine ⟨c, ⟨?_, ?_⟩, ?_⟩
      · rw [cratesEntries, List.mem_dedup, List.mem_filterMap]
        exact ⟨_, hpfs, by simp⟩
      · rw [isDirUnderCrates, List.any_eq_true]
        refine ⟨_, hpfs, ?_⟩
        simp only [Bool.and_eq_true, decide_eq_true_eq]
        exact ⟨(prefix2_iff c _).mpr ⟨x :: r, rfl⟩, by simp⟩
      · rw [rglobCratesRs, List.mem_filter]
        refine ⟨hpfs, ?_⟩
        simp only [Bool.and_eq_true, decide_eq_true_eq]
        exact ⟨⟨(prefix2_iff c _).mpr ⟨x :: r, rfl⟩, by simp⟩, hsuf⟩
    · have hshape : ∀ top, p.head? = some top → ∃ t r, p = top :: t :: r := by
        intro top htop'
        cases p with
        | nil => exact absurd htop' (by simp)
        | cons h tl =>
          cases tl with
          | nil =>
            simp only [List.length_cons, List.length_nil] at hlen
            omega
          | cons t r =>
            have hh : h = top := by simpa using htop'
            exact ⟨t, r, by rw [hh]⟩
      rcases htop with (h | h) | h
      · obtain ⟨t, r, rfl⟩ := hshape _ h
        left; left; right
        rw [globTreeRs, List.mem_filter]
        refine ⟨hpfs, ?_⟩
        simp only [Bool.and_eq_true, decide_eq_true_eq]
        exact ⟨⟨(prefix1_iff _ _).mpr ⟨t :: r, rfl⟩, by simp⟩, hsuf⟩
      · obtain ⟨t, r, rfl⟩ := hshape _ h
        left; right
        rw [globTreeRs, List.mem_filter]
        refine ⟨hpfs, ?_⟩
        simp only [Bool.and_eq_true, decide_eq_true_eq]
        exact ⟨⟨(prefix1_iff _ _).mpr ⟨t :: r, rfl⟩, by simp⟩, hsuf⟩
      · obtain ⟨t, r, rfl⟩ := hshape _ h
        right
        rw [globTreeRs, List.mem_filter]
        refine ⟨hpfs, ?_⟩
        simp only [Bool.and_eq_true, decide_eq_true_eq]
        exact ⟨⟨(prefix1_iff _ _).mpr ⟨t :: r, rfl⟩, by simp⟩, hsuf⟩

/-- C9 counterexample: the summary `main` actually prints is
`"\nProcessed 1 Rust files"` (a leading blank line and the word
`Rust`), not `"Processed 1 files"` as the claim states. -/
theorem C9_counterexample :
    main_run [["tests", "a.rs"]] (fun _ => true) (fun _ => .ok "x")
        (fun _ _ => .ok ())
      = ["\nProcessed 1 Rust files", "Modified 0 files"]
    ∧ "\nProcessed 1 Rust files" ≠ "Processed 1 files" := by
  constructor
  · decide
  · decide

/-- C9 (amended): on completion `main` prints the summary lines
`"\nProcessed <N> Rust files"` and `"Modified <M> files"` after the
per-file output, where `N` counts every discovered path confirmed to be
a regular file and `M` counts the files actually modified. -/
theorem C9_summary_counts (fs : List FsPath) (isFile : FsPath → Bool)
    (read : FsPath → Except String String)
    (write : FsPath → String → Except String Unit) :
    main_run fs isFile read write
      = (processAll isFile read write (discoverRustFiles fs)).2.2
        ++ ["\nProcessed "
              ++ toString ((discoverRustFiles fs).countP isFile)
              ++ " Rust files",
            "Modified "
              ++ toString ((discoverRustFiles fs).countP (fun f =>
                   isFile f
                   && (remove_test_modules_run (pathStr f) (read f)
                        (write f)).1))
              ++ " files"] := by
  have hc := processAll_counts (discoverRustFiles fs) isFile read write
  rw [main_run]
  rw [← hc.1, ← hc.2]

/-- C10: the transformation only deletes whole lines: the line sequence
it outputs (joined with newlines to form the new text) is a sublist —
same lines, unaltered, in the original order — of the input's line
sequence. -/
theorem C10_output_is_subsequence (content : String) :
    (remove_test_modules_text content).1
      = String.mk (joinLines (processLines false 0 0 (splitLines content.data)))
    ∧ (processLines false 0 0 (splitLines content.data)).Sublist
        (splitLines content.data) :=
  ⟨rfl, processLines_sublist (splitLines content.data) false 0 0⟩

example : isTestAttr "  #[cfg(test)]".data = true := by decide
example : isTestAttr "mod tests".data = false := by decide
example : splitLines "a\nb".data = ["a".data, "b".data] := by decide
example : scanChars 1 "\x7d".data = (0, 1) := by decide
example :
    remove_test_modules_text "x\n#[cfg(test)]\nmod t \x7b\n\x7d\ny\nz"
      = ("x\nz", true) := by decide
example :
    discoverRustFiles [["crates", "a", "src", "lib.rs"], ["tests", "t.rs"],
      ["other", "x.rs"], ["crates", "top.rs"]]
      = [["crates", "a", "src", "lib.rs"], ["tests", "t.rs"]] := by decide
example :
    main_run [["tests", "a.rs"]] (fun _ => true) (fun _ => .ok "x")
      (fun _ _ => .ok ())
      = ["\nProcessed 1 Rust files", "Modified 0 files"] := by decide
example :
    remove_test_modules_text scenarioInput = ("fn real_code() \x7b\x7d\n", true) := by
  decide
example : remove_test_modules_text twoBlocksInput = ("a\nc\ne", true) := by decide
